import Mathlib

/-!
Shallow embedding of `src/inference.py` (MLR-DX radar-detection experiment).

Numeric tensors are modelled over `ℚ`:
* a flat batch tensor is `List ℚ` (element order irrelevant to the
  element-wise operations modelled here);
* a 2D map (`[h, w]`) is `Map2 := List (List ℚ)` (rows of entries);
* a per-sample activation/gradient (`[channels, h, w]`) is
  `Tensor3 := List Map2`;
* a batched activation/gradient (`[batch, channels, h, w]`) is
  `Tensor4 := List Tensor3`.

`torch.randn_like` is modelled by an arbitrary noise source `ℕ → ℚ`
giving the sampled value at each flat position: every statement proved
about noise holds for every realization of the random draw.
-/

abbrev Map2 : Type := List (List ℚ)

abbrev Tensor3 : Type := List Map2

abbrev Tensor4 : Type := List Tensor3

/-- `torch.clamp(v, 0., 1.)`: clamp a scalar into `[0, 1]`. -/
def clamp01 (x : ℚ) : ℚ := min (max x 0) 1

/-- Element-wise body of `add_gaussian_noise` (inference.py lines 32-33),
recursing over the flat tensor with the running flat index `i` so that each
position gets its own independent noise sample `noiseAt i`:
`clamp(tensor + (randn_like(tensor) * std * multiplier + mean), 0., 1.)`. -/
def addNoiseFrom (noiseAt : ℕ → ℚ) (mean std multiplier : ℚ) : ℕ → List ℚ → List ℚ
  | _, [] => []
  | i, x :: xs =>
      clamp01 (x + (noiseAt i * std * multiplier + mean)) ::
        addNoiseFrom noiseAt mean std multiplier (i + 1) xs

/-- `add_gaussian_noise(tensor, mean, std, multiplier)` (inference.py lines
30-33): `noise = torch.randn_like(tensor) * std * multiplier + mean;
return torch.clamp(tensor + noise, 0., 1.)`. -/
def add_gaussian_noise (noiseAt : ℕ → ℚ) (tensor : List ℚ)
    (mean std multiplier : ℚ) : List ℚ :=
  addNoiseFrom noiseAt mean std multiplier 0 tensor

/-- The noise-injection step shared by `run_inferece` (lines 45-46) and
`run_gradcam` (lines 123-124): `if noise_multiplier > 0: inputs =
add_gaussian_noise(inputs, std=0.1, multiplier=noise_multiplier)`;
`mean` keeps its default `0.0`. -/
def noiseStep (noiseAt : ℕ → ℚ) (noise_multiplier : ℚ) (inputs : List ℚ) :
    List ℚ :=
  if 0 < noise_multiplier then
    add_gaussian_noise noiseAt inputs 0 (1 / 10) noise_multiplier
  else inputs

/-- The per-pixel normalization of the test transform (inference.py line 20),
`transforms.Normalize((0.5,), (0.5,))`: `x ↦ (x - 0.5) / 0.5`.  `ToTensor`
yields pixel values in `[0, 1]`, so normalized loader tensors lie in
`[-1, 1]`. -/
def normalizeTransform (x : ℚ) : ℚ := (x - 1 / 2) / (1 / 2)

/-! ### Grad-CAM heatmap arithmetic (inference.py lines 140-148) -/

/-- `torch.mean(ch, dim=(0,1))` for one `[h, w]` channel: the mean over all
spatial entries. -/
def spatialMean (ch : Map2) : ℚ := ch.flatten.sum / (ch.flatten.length : ℚ)

/-- `pooled_grad = torch.mean(gradients[-1][i], dim=(1, 2))` (line 140): the
per-channel spatial mean of the captured gradient. -/
def pooledGrad (grad : Tensor3) : List ℚ := grad.map spatialMean

/-- The channel-scaling loop (lines 143-144):
`for j in range(len(pooled_grad)): activation[j, :, :] *= pooled_grad[j]`,
pairing weight `j` with channel `j`.  Activation channels beyond
`pg.length` are untouched (the loop bound is `len(pooled_grad)`); at the
use site the two tensors come from the same layer, so the channel counts
agree. -/
def scaleChannels : List ℚ → Tensor3 → Tensor3
  | _, [] => []
  | [], chs => chs
  | w :: ws, ch :: chs => ch.map (List.map (· * w)) :: scaleChannels ws chs

/-- Entry-wise sum of two 2D maps. -/
def addMap (a b : Map2) : Map2 := List.zipWith (List.zipWith (· + ·)) a b

/-- Entry-wise sum of a stack of 2D maps. -/
def sumMaps : Tensor3 → Map2
  | [] => []
  | [m] => m
  | m :: ms => addMap m (sumMaps ms)

/-- `torch.mean(activation, dim=0)` (line 146): the entry-wise mean across
channels of a `[channels, h, w]` tensor. -/
def channelMean (t : Tensor3) : Map2 :=
  (sumMaps t).map (List.map (· / (t.length : ℚ)))

/-- `np.maximum(heatmap, 0)` (line 147): clamp negative entries to zero. -/
def reluMap (m : Map2) : Map2 := m.map (List.map (fun x => max x 0))

/-- `heatmap.max()` for a nonempty array of nonnegative entries (the use
site, line 148, applies it right after `np.maximum(heatmap, 0)`), folded
with base `0`. -/
def amax (m : Map2) : ℚ := (m.map (fun r => r.foldl max 0)).foldl max 0

/-- The `1e-8` literal of line 148. -/
def gradEps : ℚ := 1 / 100000000

/-- `heatmap /= (heatmap.max() + 1e-8)` (line 148). -/
def normalizeByMax (m : Map2) : Map2 :=
  m.map (List.map (fun x => x / (amax m + gradEps)))

/-- The Grad-CAM heatmap of one sample as the code computes it (lines
140-148), as a pure function of the captured activation and gradient:
scale each activation channel by the spatial mean of the matching gradient
channel, take the entry-wise MEAN across channels (`torch.mean(activation,
dim=0)`), clamp negatives to zero, divide by the maximum plus `1e-8`. -/
def gradcamHeatmap (act grad : Tensor3) : Map2 :=
  normalizeByMax (reluMap (channelMean (scaleChannels (pooledGrad grad) act)))

/-- Modelled from the spec: the heatmap as the spec's step list words it,
whose summation step says the scaled channels are SUMMED across channels
("sum across channels to get a single-channel map"), then negatives are
clamped to zero and the map is divided by its own maximum plus epsilon. -/
def gradcamHeatmapSpecSum (act grad : Tensor3) : Map2 :=
  normalizeByMax (reluMap (sumMaps (scaleChannels (pooledGrad grad) act)))

/-- Modelled from the spec as amended: identical step list but with the
scaled channels AVERAGED (entry-wise mean) across channels, matching
`torch.mean(activation, dim=0)`. -/
def gradcamHeatmapSpecMean (act grad : Tensor3) : Map2 :=
  normalizeByMax (reluMap (channelMean (scaleChannels (pooledGrad grad) act)))

/-- Replace the element at index `i` (no-op when out of range), used to
express torch's in-place view mutation as explicit state passing. -/
def modifyIdx {α : Type} (f : α → α) : ℕ → List α → List α
  | _, [] => []
  | 0, a :: as => f a :: as
  | n + 1, a :: as => a :: modifyIdx f n as

/-- One iteration of the inner per-sample loop of `run_gradcam` (lines
140-148), with the hook logs passed as explicit state.  `activations[-1][i]`
is a view into the logged batch tensor, and the loop of lines 143-144
multiplies it in place, so the step returns both the heatmap and the
updated activations log, in which the last entry's `i`-th slice has been
scaled; `gradients` is only read. -/
def gradcamSampleStep (activations gradients : List Tensor4) (i : ℕ) :
    Map2 × List Tensor4 :=
  let pg : List ℚ := pooledGrad ((gradients.getLastD []).getD i [])
  let activation : Tensor3 := (activations.getLastD []).getD i []
  let scaled : Tensor3 := scaleChannels pg activation
  let heatmap : Map2 := normalizeByMax (reluMap (channelMean scaled))
  (heatmap,
   modifyIdx (fun lastBatch => modifyIdx (fun _ => scaled) i lastBatch)
     (activations.length - 1) activations)

/-! ### Target-layer selection (inference.py line 114) -/

/-- Python negative indexing `l[-k]` on a list: `l[len(l) - k]` when
`k ≤ len(l)`, otherwise an `IndexError`, modelled as `none`. -/
def pyNegIndex {α : Type} (l : List α) (k : ℕ) : Option α :=
  if k ≤ l.length then l.get? (l.length - k) else none

/-- `target_layer = list(model.modules())[-5]` (line 114): the module 5
positions from the end of the model's module list; `α` stands for the
module type. -/
def selectTargetLayer {α : Type} (modules : List α) : Option α :=
  pyNegIndex modules 5

/-! ### Metrics table file (inference.py lines 72-79) -/

/-- The header line produced by `pandas.DataFrame.to_csv` for the dict of
line 72-77, whose keys are, in order, `Noise Multiplier`, `F1 Score`,
`Precision`, `Recall`. -/
def metricsHeader : String := "Noise Multiplier,F1 Score,Precision,Recall"

/-- The single data row of the one-row frame of lines 72-78:
the four values comma-separated in key order (`recallV` is the source's
`recall` variable). -/
def metricsRow (noise_multiplier f1 precisionV recallV : ℚ) : String :=
  toString noise_multiplier ++ "," ++ toString f1 ++ "," ++
    toString precisionV ++ "," ++ toString recallV

/-- `metrics_df.to_csv(metrics_path, index=False, mode='a',
header=not os.path.exists(metrics_path))` (line 79).  The file's state is
`none` when the path does not exist and `some lines` otherwise; append
mode creates the file when missing, and the header is written exactly when
the path did not exist. -/
def appendMetrics (file : Option (List String))
    (noise_multiplier f1 precisionV recallV : ℚ) : List String :=
  match file with
  | none => [metricsHeader, metricsRow noise_multiplier f1 precisionV recallV]
  | some lines => lines ++ [metricsRow noise_multiplier f1 precisionV recallV]

/-! ### Confusion matrix (inference.py line 59)

`confusion_matrix(all_labels, all_preds)` cross-tabulates actual versus
predicted labels: entry `(i, j)` counts the samples with actual class `i`
and predicted class `j`.  We index rows and columns by the class range
`0, …, k-1` (`sklearn` called with `labels=range(k)`; its default indexing
by the sorted distinct labels present is the restriction of this matrix to
the non-empty classes, which satisfies the same sum identities). -/

/-- A list of (actual, predicted) label pairs, as accumulated in
`all_labels`/`all_preds` (lines 54-55). -/
abbrev LabelPairs : Type := List (ℕ × ℕ)

/-- Entry `(i, j)` of the confusion matrix: the number of samples with
actual class `i` and predicted class `j`. -/
def cmEntry (pairs : LabelPairs) (i j : ℕ) : ℕ :=
  pairs.countP fun p => p.1 == i && p.2 == j

/-- The `k × k` confusion matrix, rows = actual class, columns = predicted
class. -/
def confusionMatrix (k : ℕ) (pairs : LabelPairs) : List (List ℕ) :=
  (List.range k).map fun i => (List.range k).map fun j => cmEntry pairs i j

/-- Sum of row `i` of the confusion matrix. -/
def cmRowSum (k : ℕ) (pairs : LabelPairs) (i : ℕ) : ℕ :=
  (((confusionMatrix k pairs).getD i [])).sum

/-- Sum of column `j` of the confusion matrix. -/
def cmColSum (k : ℕ) (pairs : LabelPairs) (j : ℕ) : ℕ :=
  ((confusionMatrix k pairs).map fun row => row.getD j 0).sum

/-- Sum of the diagonal of the confusion matrix. -/
def cmDiagSum (k : ℕ) (pairs : LabelPairs) : ℕ :=
  ((List.range k).map fun i => ((confusionMatrix k pairs).getD i []).getD i 0).sum

/-! ### Grad-CAM image outputs (inference.py lines 98, 151-160) -/

/-- Whether a path string ends with the separator `'/'` (over the string's
character list, so it evaluates by reduction). -/
def endsWithSep (s : String) : Bool := s.data.getLast? == some '/'

/-- `os.path.join(dir, name)` for a relative `name`: concatenation with a
separator inserted unless `dir` is empty or already ends with one. -/
def pathJoin (dir name : String) : String :=
  if dir = "" then name
  else if endsWithSep dir then dir ++ name
  else dir ++ "/" ++ name

/-- The f-string of line 156:
`f"gradcam_sample_{sample_idx}_class_{classes[preds[i]]}"` plus `.png`. -/
def gradcamFileName (sample_idx : ℕ) (className : String) : String :=
  "gradcam_sample_" ++ toString sample_idx ++ "_class_" ++ className ++ ".png"

/-- `os.makedirs(gradcam_output_dir, exist_ok=True)` (line 98) over a
directory set modelled as a list: add the directory unless present. -/
def makedirs (dirs : List String) (d : String) : List String :=
  if d ∈ dirs then dirs else dirs ++ [d]

/-- The files written by the inner loop of `run_gradcam` (lines 132-160)
for one batch whose per-sample predicted class indices are `preds`,
starting from counter value `sample_idx`: one `cv2.imwrite` per sample,
named by the running counter and the predicted class name
(`classes[preds[i]]`, line 156), with the counter incremented after each
sample (line 160). -/
def gradcamBatchWrites (dir : String) (classes : List String) :
    ℕ → List ℕ → List String
  | _, [] => []
  | sample_idx, p :: ps =>
      pathJoin dir (gradcamFileName sample_idx (classes.getD p "")) ::
        gradcamBatchWrites dir classes (sample_idx + 1) ps

/-- The files written by the outer batch loop of `run_gradcam` (line 122
onward): batches are processed in order and the sample counter carries
over from one batch to the next (`sample_idx` is initialised once, line
120, and never reset). -/
def gradcamWritesFrom (dir : String) (classes : List String) :
    ℕ → List (List ℕ) → List String
  | _, [] => []
  | sample_idx, b :: bs =>
      gradcamBatchWrites dir classes sample_idx b ++
        gradcamWritesFrom dir classes (sample_idx + b.length) bs

/-- All image files written by one `run_gradcam` call, given the predicted
class index of every sample grouped by batch; the counter starts at 0
(line 120). -/
def gradcamWrites (dir : String) (classes : List String)
    (predBatches : List (List ℕ)) : List String :=
  gradcamWritesFrom dir classes 0 predBatches

/-! ### Quick sanity checks on concrete inputs -/

example : clamp01 (-1) = 0 := by unfold clamp01; norm_num
example : clamp01 (3/2) = 1 := by unfold clamp01; norm_num
example : add_gaussian_noise (fun _ => 2) [0, 1/2] 0 (1/10) 1 = [1/5, 7/10] := by
  simp [add_gaussian_noise, addNoiseFrom, clamp01]
  norm_num
example : noiseStep (fun _ => 2) 0 [-1, 1/2] = [-1, 1/2] := by
  simp [noiseStep]
example : gradcamHeatmap [[[1]], [[1]]] [[[1]], [[1]]] = [[100000000/100000001]] := by
  norm_num [gradcamHeatmap, normalizeByMax, reluMap, channelMean, scaleChannels,
    pooledGrad, spatialMean, sumMaps, addMap, amax, gradEps]
example : gradcamHeatmapSpecSum [[[1]], [[1]]] [[[1]], [[1]]] = [[200000000/200000001]] := by
  norm_num [gradcamHeatmapSpecSum, normalizeByMax, reluMap, channelMean, scaleChannels,
    pooledGrad, spatialMean, sumMaps, addMap, amax, gradEps]
example : selectTargetLayer [10, 20, 30, 40, 50, 60] = some 20 := by decide
example : selectTargetLayer [10, 20, 30, 40] = (none : Option ℕ) := by decide
example : cmEntry [(0, 0), (0, 1), (1, 1)] 0 1 = 1 := by decide
example : confusionMatrix 2 [(0, 0), (0, 1), (1, 1)] = [[1, 1], [0, 1]] := by decide
example : gradcamWrites "out/gradcam/" ["dog", "cat"] [[1, 0], [1]] =
    ["out/gradcam/gradcam_sample_0_class_cat.png",
     "out/gradcam/gradcam_sample_1_class_dog.png",
     "out/gradcam/gradcam_sample_2_class_cat.png"] := by
  decide

/-! ### Helper lemmas -/

lemma clamp01_nonneg (x : ℚ) : 0 ≤ clamp01 x := by
  unfold clamp01
  positivity

lemma clamp01_le_one (x : ℚ) : clamp01 x ≤ 1 := by
  unfold clamp01
  exact min_le_right _ _

lemma addNoiseFrom_length (noiseAt : ℕ → ℚ) (mean std mult : ℚ) :
    ∀ (i : ℕ) (t : List ℚ),
      (addNoiseFrom noiseAt mean std mult i t).length = t.length := by
  intro i t
  induction t generalizing i with
  | nil => rfl
  | cons x xs ih => simp [addNoiseFrom, ih]

lemma addNoiseFrom_mem_bounds (noiseAt : ℕ → ℚ) (mean std mult : ℚ) :
    ∀ (i : ℕ) (t : List ℚ) (x : ℚ),
      x ∈ addNoiseFrom noiseAt mean std mult i t → 0 ≤ x ∧ x ≤ 1 := by
  intro i t
  induction t generalizing i with
  | nil => intro x hx; simp [addNoiseFrom] at hx
  | cons y ys ih =>
      intro x hx
      simp only [addNoiseFrom, List.mem_cons] at hx
      rcases hx with h | h
      · exact h ▸ ⟨clamp01_nonneg _, clamp01_le_one _⟩
      · exact ih _ x h

lemma addNoiseFrom_zero_mult (noiseAt : ℕ → ℚ) (std : ℚ) :
    ∀ (i : ℕ) (t : List ℚ),
      addNoiseFrom noiseAt 0 std 0 i t = t.map clamp01 := by
  intro i t
  induction t generalizing i with
  | nil => rfl
  | cons x xs ih => simp [addNoiseFrom, ih]

lemma foldl_max_init_le (l : List ℚ) (a : ℚ) : a ≤ l.foldl max a := by
  induction l generalizing a with
  | nil => exact le_refl a
  | cons x xs ih => exact le_trans (le_max_left a x) (ih (max a x))

lemma le_foldl_max_of_mem {l : List ℚ} {x : ℚ} (hx : x ∈ l) :
    ∀ a : ℚ, x ≤ l.foldl max a := by
  induction l with
  | nil => cases hx
  | cons y ys ih =>
      intro a
      rcases List.mem_cons.1 hx with rfl | h
      · exact le_trans (le_max_right a x) (foldl_max_init_le ys (max a x))
      · exact ih h (max a y)

lemma amax_nonneg (m : Map2) : 0 ≤ amax m :=
  foldl_max_init_le _ 0

lemma le_amax_of_mem {m : Map2} {row : List ℚ} {x : ℚ}
    (hr : row ∈ m) (hx : x ∈ row) : x ≤ amax m := by
  have h1 : x ≤ row.foldl max 0 := le_foldl_max_of_mem hx 0
  have h2 : row.foldl max 0 ≤ amax m :=
    le_foldl_max_of_mem (List.mem_map_of_mem _ hr) 0
  exact le_trans h1 h2

/-- Entries of `normalizeByMax (reluMap m)` lie in `[0, 1]`: numerators are
clamped nonnegative and bounded by the maximum, and the denominator is the
maximum plus the positive epsilon. -/
lemma normalizeByMax_reluMap_bounds (m : Map2) :
    ∀ row ∈ normalizeByMax (reluMap m), ∀ x ∈ row, 0 ≤ x ∧ x ≤ 1 := by
  intro row hrow x hx
  rcases List.mem_map.1 hrow with ⟨r, hr, rfl⟩
  rcases List.mem_map.1 hx with ⟨y, hy, rfl⟩
  have hy0 : 0 ≤ y := by
    rcases List.mem_map.1 hr with ⟨r0, _, rfl⟩
    rcases List.mem_map.1 hy with ⟨y0, _, rfl⟩
    exact le_max_right y0 0
  have hymax : y ≤ amax (reluMap m) := le_amax_of_mem hr hy
  have hd : 0 < amax (reluMap m) + gradEps := by
    have := amax_nonneg (reluMap m)
    unfold gradEps
    linarith
  constructor
  · exact div_nonneg hy0 (le_of_lt hd)
  · rw [div_le_one hd]
    unfold gradEps
    linarith

/-- All entries of a 2D map are zero. -/
def allZeroM (m : Map2) : Prop := ∀ row ∈ m, ∀ x ∈ row, x = 0

/-- All entries of a 3D tensor are zero. -/
def allZeroT (t : Tensor3) : Prop := ∀ ch ∈ t, allZeroM ch

lemma scaleChannels_allZero : ∀ (act : Tensor3) (pg : List ℚ),
    allZeroT act → allZeroT (scaleChannels pg act) := by
  intro act
  induction act with
  | nil =>
      intro pg h ch hch
      cases pg <;> cases (by simp [scaleChannels] at hch : False)
  | cons c cs ih =>
      intro pg h
      cases pg with
      | nil => simpa [scaleChannels] using h
      | cons w ws =>
          intro ch hch
          rcases List.mem_cons.1 hch with rfl | hch
          · intro row hrow x hx
            rcases List.mem_map.1 hrow with ⟨r, hr, rfl⟩
            rcases List.mem_map.1 hx with ⟨y, hy, rfl⟩
            have hy0 : y = 0 := h c (List.mem_cons_self _ _) r hr y hy
            rw [hy0, zero_mul]
          · exact ih ws (fun a ha => h a (List.mem_cons_of_mem _ ha)) ch hch

lemma zipWith_add_allZero : ∀ {r s : List ℚ},
    (∀ x ∈ r, x = 0) → (∀ x ∈ s, x = 0) →
      ∀ x ∈ List.zipWith (· + ·) r s, x = 0 := by
  intro r
  induction r with
  | nil => intro s _ _ x hx; simp at hx
  | cons a as ih =>
      intro s hr hs x hx
      cases s with
      | nil => simp at hx
      | cons b bs =>
          rcases List.mem_cons.1 hx with rfl | hx
          · have ha0 : a = 0 := hr a (List.mem_cons_self _ _)
            have hb0 : b = 0 := hs b (List.mem_cons_self _ _)
            simp [ha0, hb0]
          · exact ih (fun y hy => hr y (List.mem_cons_of_mem _ hy))
              (fun y hy => hs y (List.mem_cons_of_mem _ hy)) x hx

lemma addMap_allZero : ∀ {a b : Map2},
    allZeroM a → allZeroM b → allZeroM (addMap a b) := by
  intro a
  induction a with
  | nil => intro b _ _ row hrow; simp [addMap] at hrow
  | cons r rs ih =>
      intro b ha hb row hrow
      cases b with
      | nil => simp [addMap] at hrow
      | cons s ss =>
          unfold addMap at hrow
          rcases List.mem_cons.1 hrow with rfl | hrow
          · exact zipWith_add_allZero (ha r (List.mem_cons_self _ _))
              (hb s (List.mem_cons_self _ _))
          · exact ih (fun y hy => ha y (List.mem_cons_of_mem _ hy))
              (fun y hy => hb y (List.mem_cons_of_mem _ hy)) row hrow

lemma sumMaps_allZero : ∀ {t : Tensor3}, allZeroT t → allZeroM (sumMaps t) := by
  intro t
  induction t with
  | nil => intro _ row hrow; simp [sumMaps] at hrow
  | cons m ms ih =>
      intro ht
      cases ms with
      | nil => simpa [sumMaps] using ht m (List.mem_cons_self _ _)
      | cons m2 ms2 =>
          exact addMap_allZero (ht m (List.mem_cons_self _ _))
            (ih fun a ha => ht a (List.mem_cons_of_mem _ ha))

lemma channelMean_allZero {t : Tensor3} (h : allZeroT t) :
    allZeroM (channelMean t) := by
  intro row hrow x hx
  rcases List.mem_map.1 hrow with ⟨r, hr, rfl⟩
  rcases List.mem_map.1 hx with ⟨y, hy, rfl⟩
  rw [sumMaps_allZero h r hr y hy, zero_div]

lemma reluMap_allZero {m : Map2} (h : allZeroM m) : allZeroM (reluMap m) := by
  intro row hrow x hx
  rcases List.mem_map.1 hrow with ⟨r, hr, rfl⟩
  rcases List.mem_map.1 hx with ⟨y, hy, rfl⟩
  rw [h r hr y hy]
  simp

lemma normalizeByMax_allZero {m : Map2} (h : allZeroM m) :
    allZeroM (normalizeByMax m) := by
  intro row hrow x hx
  rcases List.mem_map.1 hrow with ⟨r, hr, rfl⟩
  rcases List.mem_map.1 hx with ⟨y, hy, rfl⟩
  rw [h r hr y hy, zero_div]

/-! ### Claim theorems -/

/-- C2.  When the noise multiplier is 0, the noise-injection step of the
evaluation and explanation loops is a no-op: the tensor handed to the model
is the loaded input, unchanged — the guard `noise_multiplier > 0` fails, so
`add_gaussian_noise` is never even entered (whereas entering it would have
clamped an out-of-range entry like `-1`). -/
theorem noise_step_noop_at_zero_multiplier :
    (∀ (noiseAt : ℕ → ℚ) (inputs : List ℚ), noiseStep noiseAt 0 inputs = inputs) ∧
    (∀ noiseAt : ℕ → ℚ,
      noiseStep noiseAt 0 [-1] ≠ add_gaussian_noise noiseAt [-1] 0 (1 / 10) 0) := by
  constructor
  · intro noiseAt inputs
    simp [noiseStep]
  · intro noiseAt
    have h1 : noiseStep noiseAt 0 [-1] = [-1] := by simp [noiseStep]
    have h2 : add_gaussian_noise noiseAt [-1] 0 (1 / 10) 0 = [0] := by
      norm_num [add_gaussian_noise, addNoiseFrom, clamp01]
    rw [h1, h2]
    norm_num

/-- Witness for C2 at a concrete noise realization. -/
theorem noise_step_noop_at_zero_multiplier_witness :
    noiseStep (fun _ => 3) 0 [-1] = [-1] ∧
      noiseStep (fun _ => 3) 0 [-1] ≠
        add_gaussian_noise (fun _ => 3) [-1] 0 (1 / 10) 0 :=
  ⟨noise_step_noop_at_zero_multiplier.1 (fun _ => 3) [-1],
   noise_step_noop_at_zero_multiplier.2 (fun _ => 3)⟩

/-- C3.  For any input tensor, any noise realization and any multiplier > 0,
`add_gaussian_noise` returns a tensor of the same shape in which every
entry has been clamped to `[0, 1]` — so every output entry lies in
`[0, 1]` regardless of the input values. -/
theorem add_gaussian_noise_output_in_unit_interval
    (noiseAt : ℕ → ℚ) (tensor : List ℚ) (mean std multiplier : ℚ)
    (_hm : 0 < multiplier) :
    (add_gaussian_noise noiseAt tensor mean std multiplier).length =
        tensor.length ∧
      ∀ x ∈ add_gaussian_noise noiseAt tensor mean std multiplier,
        0 ≤ x ∧ x ≤ 1 :=
  ⟨addNoiseFrom_length noiseAt mean std multiplier 0 tensor,
   fun x hx => addNoiseFrom_mem_bounds noiseAt mean std multiplier 0 tensor x hx⟩

/-- Witness for C3: a tensor with entries outside `[0, 1]`, multiplier 1. -/
theorem add_gaussian_noise_output_in_unit_interval_witness :
    (0 : ℚ) < 1 ∧
      ((add_gaussian_noise (fun _ => 5) [-2, 3] 0 (1 / 10) 1).length = 2 ∧
        ∀ x ∈ add_gaussian_noise (fun _ => 5) [-2, 3] 0 (1 / 10) 1,
          0 ≤ x ∧ x ≤ 1) :=
  ⟨by norm_num,
   add_gaussian_noise_output_in_unit_interval (fun _ => 5) [-2, 3] 0 (1 / 10) 1
     (by norm_num)⟩

/-- C9.  `add_gaussian_noise` itself, called with multiplier 0 and mean 0,
is not the identity: it returns the entry-wise clamp of the input to
`[0, 1]`, so it alters any input with an entry outside `[0, 1]` — and the
loader's `Normalize((0.5,), (0.5,))` transform produces exactly such
entries (it maps `[0, 1]` onto `[-1, 1]`, pixel 0 to `-1`).  The
multiplier-0 no-op holds only because the callers skip the function. -/
theorem add_gaussian_noise_zero_multiplier_clamps :
    (∀ (noiseAt : ℕ → ℚ) (tensor : List ℚ) (std : ℚ),
        add_gaussian_noise noiseAt tensor 0 std 0 = tensor.map clamp01) ∧
    (∀ x : ℚ, 0 ≤ x → x ≤ 1 →
        -1 ≤ normalizeTransform x ∧ normalizeTransform x ≤ 1) ∧
    normalizeTransform 0 = -1 ∧
    add_gaussian_noise (fun _ => 0) [normalizeTransform 0] 0 (1 / 10) 0 = [0] ∧
    ([0] : List ℚ) ≠ [normalizeTransform 0] := by
  refine ⟨?_, ?_, ?_, ?_, ?_⟩
  · intro noiseAt tensor std
    exact addNoiseFrom_zero_mult noiseAt std 0 tensor
  · intro x h0 h1
    unfold normalizeTransform
    constructor <;> [nlinarith; nlinarith]
  · unfold normalizeTransform; norm_num
  · norm_num [add_gaussian_noise, addNoiseFrom, clamp01, normalizeTransform]
  · norm_num [normalizeTransform]

/-- Witness for C9 at a concrete pixel value. -/
theorem add_gaussian_noise_zero_multiplier_clamps_witness :
    add_gaussian_noise (fun _ => 7) [-1, 2] 0 (1 / 10) 0 =
        ([-1, 2] : List ℚ).map clamp01 ∧
      (-1 ≤ normalizeTransform (1 / 4) ∧ normalizeTransform (1 / 4) ≤ 1) :=
  ⟨add_gaussian_noise_zero_multiplier_clamps.1 (fun _ => 7) [-1, 2] (1 / 10),
   add_gaussian_noise_zero_multiplier_clamps.2.1 (1 / 4) (by norm_num)
     (by norm_num)⟩

/-- C5.  First write on a non-existent metrics path produces exactly the
header line (columns `Noise Multiplier, F1 Score, Precision, Recall`)
followed by one data row; a write on an existing file leaves every
previous line unchanged and appends exactly the one data row, with no
header. -/
theorem metrics_file_header_once_then_append
    (nm f1 p r : ℚ) (lines : List String) :
    appendMetrics none nm f1 p r = [metricsHeader, metricsRow nm f1 p r] ∧
      (appendMetrics (some lines) nm f1 p r).take lines.length = lines ∧
      (appendMetrics (some lines) nm f1 p r).drop lines.length =
        [metricsRow nm f1 p r] ∧
      metricsHeader = "Noise Multiplier,F1 Score,Precision,Recall" := by
  refine ⟨rfl, ?_, ?_, rfl⟩
  · simp [appendMetrics]
  · simp [appendMetrics]

/-- C7.  The Grad-CAM explainer instruments the module exactly 5 positions
from the end of the model's module list; on a module list with fewer than
5 entries the lookup fails (Python `IndexError`, modelled as `none`). -/
theorem target_layer_is_fifth_from_end (α : Type) (xs : List α)
    (a b c d e : α) :
    selectTargetLayer (xs ++ [a, b, c, d, e]) = some a ∧
      ∀ l : List α, l.length < 5 → selectTargetLayer l = none := by
  constructor
  · unfold selectTargetLayer pyNegIndex
    have hlen : (xs ++ [a, b, c, d, e]).length = xs.length + 5 := by simp
    rw [hlen]
    rw [if_pos (by omega)]
    have h5 : xs.length + 5 - 5 = xs.length := by omega
    rw [h5]
    rw [List.get?_eq_getElem?, List.getElem?_append_right (le_refl xs.length)]
    simp
  · intro l hl
    unfold selectTargetLayer pyNegIndex
    rw [if_neg (by omega)]

/-- Witness for C7 at concrete module lists. -/
theorem target_layer_is_fifth_from_end_witness :
    selectTargetLayer ([9, 9] ++ [1, 2, 3, 4, 5]) = some 1 ∧
      selectTargetLayer ([1, 2, 3, 4] : List ℕ) = none :=
  ⟨(target_layer_is_fifth_from_end ℕ [9, 9] 1 2 3 4 5).1,
   (target_layer_is_fifth_from_end ℕ [9, 9] 1 2 3 4 5).2 [1, 2, 3, 4]
     (by norm_num)⟩

/-- C4.  Every entry of the normalized Grad-CAM heatmap lies in `[0, 1]`,
and when the clamped weighted map is all zeros — in particular for an
all-zero activation — the normalized output is all zeros (the epsilon in
the denominator prevents a division-by-zero artifact). -/
theorem gradcam_heatmap_entries_in_unit_interval (act grad : Tensor3) :
    (∀ row ∈ gradcamHeatmap act grad, ∀ x ∈ row, 0 ≤ x ∧ x ≤ 1) ∧
      (allZeroM (reluMap (channelMean (scaleChannels (pooledGrad grad) act))) →
        allZeroM (gradcamHeatmap act grad)) ∧
      (allZeroT act → allZeroM (gradcamHeatmap act grad)) := by
  refine ⟨normalizeByMax_reluMap_bounds _, ?_, ?_⟩
  · intro h
    exact normalizeByMax_allZero h
  · intro h
    exact normalizeByMax_allZero
      (reluMap_allZero (channelMean_allZero (scaleChannels_allZero _ _ h)))

/-- Witness for C4: a nonzero and an all-zero activation, concretely. -/
theorem gradcam_heatmap_entries_in_unit_interval_witness :
    (∀ row ∈ gradcamHeatmap [[[2, -1]]] [[[1, 1]]], ∀ x ∈ row, 0 ≤ x ∧ x ≤ 1) ∧
      (allZeroT [[[0, 0]]] ∧ allZeroM (gradcamHeatmap [[[0, 0]]] [[[1, 1]]])) :=
  ⟨(gradcam_heatmap_entries_in_unit_interval [[[2, -1]]] [[[1, 1]]]).1,
   by
    have hz : allZeroT [[[0, 0]]] := by
      intro ch hch row hrow x hx
      simp at hch
      subst hch
      simp at hrow
      subst hrow
      simpa using hx
    exact ⟨hz,
      (gradcam_heatmap_entries_in_unit_interval [[[0, 0]]] [[[1, 1]]]).2.2 hz⟩⟩

/-- C1 counterexample.  The claim says the scaled channels are SUMMED
across channels before clamping and normalizing; the code takes their
entry-wise mean (`torch.mean(activation, dim=0)`, line 146).  Because of
the `1e-8` added to the maximum, the two disagree on a concrete sample
with two channels: the code yields `[[10^8 / (10^8 + 1)]]` while the
claimed sum-based pipeline yields `[[2·10^8 / (2·10^8 + 1)]]`. -/
theorem gradcam_sum_step_counterexample :
    (gradcamSampleStep [[[[[1]], [[1]]]]] [[[[[1]], [[1]]]]] 0).1 ≠
      gradcamHeatmapSpecSum [[[1]], [[1]]] [[[1]], [[1]]] := by
  have hcode : (gradcamSampleStep [[[[[1]], [[1]]]]] [[[[[1]], [[1]]]]] 0).1 =
      [[100000000 / 100000001]] := by
    norm_num [gradcamSampleStep, normalizeByMax, reluMap, channelMean,
      scaleChannels, pooledGrad, spatialMean, sumMaps, addMap, amax, gradEps]
  have hspec : gradcamHeatmapSpecSum [[[1]], [[1]]] [[[1]], [[1]]] =
      [[200000000 / 200000001]] := by
    norm_num [gradcamHeatmapSpecSum, normalizeByMax, reluMap, channelMean,
      scaleChannels, pooledGrad, spatialMean, sumMaps, addMap, amax, gradEps]
  rw [hcode, hspec]
  norm_num

/-- C1 as amended.  For every sample processed by the Grad-CAM explainer,
the heatmap is computed by: reading the most recently logged activation
and gradient for that sample, scaling each activation channel by the
spatial mean of the corresponding gradient channel, AVERAGING the scaled
channels across channels (entry-wise mean) into a single 2D map, clamping
negatives to zero, and dividing by its own maximum plus a small epsilon. -/
theorem gradcam_heatmap_is_mean_pipeline (activations gradients : List Tensor4)
    (i : ℕ) (ha : activations ≠ []) (hg : gradients ≠ []) :
    (gradcamSampleStep activations gradients i).1 =
      gradcamHeatmapSpecMean ((activations.getLast ha).getD i [])
        ((gradients.getLast hg).getD i []) := by
  unfold gradcamSampleStep gradcamHeatmapSpecMean
  rw [List.getLastD_eq_getLast?, List.getLastD_eq_getLast?,
    List.getLast?_eq_getLast _ ha, List.getLast?_eq_getLast _ hg]
  rfl

/-- Witness for C1's amended theorem at a concrete one-sample log. -/
theorem gradcam_heatmap_is_mean_pipeline_witness :
    (gradcamSampleStep [[[[[1]], [[1]]]]] [[[[[1]], [[1]]]]] 0).1 =
      gradcamHeatmapSpecMean
        (([[[[1]], [[1]]]] : Tensor4).getD 0 [])
        (([[[[1]], [[1]]]] : Tensor4).getD 0 []) :=
  gradcam_heatmap_is_mean_pipeline [[[[[1]], [[1]]]]] [[[[[1]], [[1]]]]] 0
    (by simp) (by simp)

lemma modifyIdx_eq_take_append_drop {α : Type} (f : α → α) :
    ∀ (l : List α) (i : ℕ) (h : i < l.length),
      modifyIdx f i l = l.take i ++ [f (l.get ⟨i, h⟩)] ++ l.drop (i + 1) := by
  intro l
  induction l with
  | nil => intro i h; simp at h
  | cons a as ih =>
      intro i h
      cases i with
      | zero => simp [modifyIdx]
      | succ n =>
          have hn : n < as.length := by simpa using h
          simp [modifyIdx, ih n hn]

lemma modifyIdx_last {α : Type} (g : α → α) :
    ∀ (l : List α) (h : l ≠ []),
      modifyIdx g (l.length - 1) l = l.dropLast ++ [g (l.getLast h)] := by
  intro l
  induction l with
  | nil => intro h; exact absurd rfl h
  | cons a as ih =>
      intro h
      rcases eq_or_ne as [] with rfl | hne
      · simp [modifyIdx]
      · obtain ⟨n, hn⟩ : ∃ n, as.length = n + 1 :=
          ⟨as.length - 1, (Nat.succ_pred_eq_of_pos (List.length_pos.2 hne)).symm⟩
        have hlen : (a :: as).length - 1 = n + 1 := by simp [hn]
        rw [hlen]
        have hrec : modifyIdx g (n + 1) (a :: as) = a :: modifyIdx g n as := rfl
        rw [hrec]
        have hn' : n = as.length - 1 := by omega
        rw [hn', ih hne, List.dropLast_cons_of_ne_nil hne,
          List.getLast_cons hne]
        simp

/-- C10.  The channel-weighting loop mutates the captured activation in
place: `activation` (line 141) is a view into the last entry of the
activations log, so after the sample is processed the log's last entry has
its `i`-th slice permanently replaced by the gradient-scaled tensor, the
other slices and all earlier log entries being untouched. -/
theorem gradcam_step_scales_logged_activation
    (activations gradients : List Tensor4) (i : ℕ)
    (ha : activations ≠ []) (hi : i < (activations.getLast ha).length) :
    (gradcamSampleStep activations gradients i).2 =
      activations.dropLast ++
        [(activations.getLast ha).take i ++
           [scaleChannels (pooledGrad ((gradients.getLastD []).getD i []))
              ((activations.getLast ha).getD i [])] ++
           (activations.getLast ha).drop (i + 1)] := by
  simp only [gradcamSampleStep]
  rw [List.getLastD_eq_getLast?, List.getLastD_eq_getLast?,
    List.getLast?_eq_getLast _ ha]
  rw [modifyIdx_last _ activations ha]
  rw [modifyIdx_eq_take_append_drop _ (activations.getLast ha) i hi]
  simp only [Option.getD_some]

/-- Witness for C10: a two-sample batch in a one-entry log; sample 0's
logged slice `[[[2]]]` is scaled by its pooled gradient `4` to `[[[8]]]`,
sample 1's slice is untouched. -/
theorem gradcam_step_scales_logged_activation_witness :
    (gradcamSampleStep [[[[[2]]], [[[3]]]]] [[[[[4]]], [[[5]]]]] 0).2 =
      [[[[[8]]], [[[3]]]]] :=
  (gradcam_step_scales_logged_activation [[[[[2]]], [[[3]]]]]
      [[[[[4]]], [[[5]]]]] 0 (by simp) (by simp)).trans
    (by norm_num [scaleChannels, pooledGrad, spatialMean, List.getLast])

lemma sum_map_add_nat {α : Type} (l : List α) (f g : α → ℕ) :
    (l.map fun x => f x + g x).sum = (l.map f).sum + (l.map g).sum := by
  induction l with
  | nil => rfl
  | cons a as ih => simp [ih]; omega

lemma indicator_range_sum (c : Bool) :
    ∀ (k b : ℕ), b < k →
      ((List.range k).map fun j => if (c && (b == j)) = true then 1 else 0).sum
        = if c = true then 1 else 0 := by
  intro k
  induction k with
  | zero => intro b hb; omega
  | succ n ih =>
      intro b hb
      rw [List.range_succ, List.map_append, List.sum_append]
      rcases Nat.lt_or_ge b n with hb' | hb'
      · rw [ih b hb']
        have hne : (b == n) = false := by
          simp only [beq_eq_false_iff_ne]
          omega
        have hbn : b ≠ n := by omega
        simp [hne, hbn]
      · have hbn : b = n := by omega
        subst hbn
        have hz : ((List.range b).map
            fun j => if (c && (b == j)) = true then 1 else 0).sum = 0 := by
          apply List.sum_eq_zero
          intro x hx
          rcases List.mem_map.1 hx with ⟨j, hj, rfl⟩
          have hne : (b == j) = false := by
            simp only [beq_eq_false_iff_ne]
            have := List.mem_range.1 hj
            omega
          simp [hne]
        rw [hz]
        cases c <;> simp

lemma indicator_diag_sum :
    ∀ (k a b : ℕ), a < k →
      ((List.range k).map fun i => if (a == i && b == i) = true then 1 else 0).sum
        = if (a == b) = true then 1 else 0 := by
  intro k
  induction k with
  | zero => intro a b ha; omega
  | succ n ih =>
      intro a b ha
      rw [List.range_succ, List.map_append, List.sum_append]
      rcases Nat.lt_or_ge a n with ha' | ha'
      · rw [ih a b ha']
        have hne : (a == n) = false := by
          simp only [beq_eq_false_iff_ne]
          omega
        have han : a ≠ n := by omega
        simp [hne, han]
      · have han : a = n := by omega
        subst han
        have hz : ((List.range a).map
            fun i => if (a == i && b == i) = true then 1 else 0).sum = 0 := by
          apply List.sum_eq_zero
          intro x hx
          rcases List.mem_map.1 hx with ⟨i, hi, rfl⟩
          have hne : (a == i) = false := by
            simp only [beq_eq_false_iff_ne]
            have := List.mem_range.1 hi
            omega
          simp [hne]
        rw [hz]
        rcases eq_or_ne b a with rfl | hba
        · simp
        · have h1 : (b == a) = false := by simp [hba]
          have h2 : (a == b) = false := by
            simp only [beq_eq_false_iff_ne]
            exact fun h => hba h.symm
          simp [h1, h2, hba]

lemma rowAux_eq (k i : ℕ) :
    ∀ pairs : LabelPairs, (∀ p ∈ pairs, p.2 < k) →
      ((List.range k).map fun j => cmEntry pairs i j).sum =
        pairs.countP fun p => p.1 == i := by
  intro pairs
  induction pairs with
  | nil => intro _; simp [cmEntry]
  | cons q rest ih =>
      intro h
      have hq : q.2 < k := h q (List.mem_cons_self _ _)
      have hr : ∀ p ∈ rest, p.2 < k := fun p hp => h p (List.mem_cons_of_mem _ hp)
      have hstep : ∀ j, cmEntry (q :: rest) i j =
          cmEntry rest i j + (if (q.1 == i && q.2 == j) = true then 1 else 0) := by
        intro j
        simp [cmEntry, List.countP_cons]
      simp only [hstep]
      rw [sum_map_add_nat, ih hr, indicator_range_sum (q.1 == i) k q.2 hq,
        List.countP_cons]

lemma colAux_eq (k j : ℕ) :
    ∀ pairs : LabelPairs, (∀ p ∈ pairs, p.1 < k) →
      ((List.range k).map fun i => cmEntry pairs i j).sum =
        pairs.countP fun p => p.2 == j := by
  intro pairs
  induction pairs with
  | nil => intro _; simp [cmEntry]
  | cons q rest ih =>
      intro h
      have hq : q.1 < k := h q (List.mem_cons_self _ _)
      have hr : ∀ p ∈ rest, p.1 < k := fun p hp => h p (List.mem_cons_of_mem _ hp)
      have hstep : ∀ i, cmEntry (q :: rest) i j =
          cmEntry rest i j + (if (q.2 == j && q.1 == i) = true then 1 else 0) := by
        intro i
        simp [cmEntry, List.countP_cons, Bool.and_comm]
      simp only [hstep]
      rw [sum_map_add_nat, ih hr, indicator_range_sum (q.2 == j) k q.1 hq,
        List.countP_cons]

lemma diagAux_eq (k : ℕ) :
    ∀ pairs : LabelPairs, (∀ p ∈ pairs, p.1 < k) →
      ((List.range k).map fun i => cmEntry pairs i i).sum =
        pairs.countP fun p => p.1 == p.2 := by
  intro pairs
  induction pairs with
  | nil => intro _; simp [cmEntry]
  | cons q rest ih =>
      intro h
      have hq : q.1 < k := h q (List.mem_cons_self _ _)
      have hr : ∀ p ∈ rest, p.1 < k := fun p hp => h p (List.mem_cons_of_mem _ hp)
      have hstep : ∀ i, cmEntry (q :: rest) i i =
          cmEntry rest i i + (if (q.1 == i && q.2 == i) = true then 1 else 0) := by
        intro i
        simp [cmEntry, List.countP_cons]
      simp only [hstep]
      rw [sum_map_add_nat, ih hr, indicator_diag_sum k q.1 q.2 hq,
        List.countP_cons]

lemma confusionMatrix_row (k : ℕ) (pairs : LabelPairs) {i : ℕ} (hi : i < k) :
    (confusionMatrix k pairs).getD i [] =
      (List.range k).map fun j => cmEntry pairs i j := by
  unfold confusionMatrix
  rw [List.getD_eq_getElem?_getD, List.getElem?_map, List.getElem?_range hi]
  rfl

lemma confusionMatrix_col (k : ℕ) (pairs : LabelPairs) {j : ℕ} (hj : j < k) :
    ((confusionMatrix k pairs).map fun row => row.getD j 0) =
      (List.range k).map fun i => cmEntry pairs i j := by
  unfold confusionMatrix
  rw [List.map_map]
  apply List.map_congr_left
  intro i _
  simp only [Function.comp]
  rw [List.getD_eq_getElem?_getD, List.getElem?_map, List.getElem?_range hj]
  rfl

lemma confusionMatrix_diag (k : ℕ) (pairs : LabelPairs) :
    cmDiagSum k pairs = ((List.range k).map fun i => cmEntry pairs i i).sum := by
  unfold cmDiagSum
  apply congrArg
  apply List.map_congr_left
  intro i hi
  have hik : i < k := List.mem_range.1 hi
  rw [confusionMatrix_row k pairs hik, List.getD_eq_getElem?_getD,
    List.getElem?_map, List.getElem?_range hik]
  rfl

/-- C6.  For every list of (actual, predicted) label pairs over classes
`0, …, k-1`, the confusion matrix satisfies: row `i` sums to the number of
samples whose actual class is `i`, column `j` sums to the number of
samples predicted as class `j`, and the diagonal sums to the total number
of correct predictions. -/
theorem confusion_matrix_sum_identities (k : ℕ) (pairs : LabelPairs)
    (h : ∀ p ∈ pairs, p.1 < k ∧ p.2 < k) :
    (∀ i, i < k → cmRowSum k pairs i = pairs.countP fun p => p.1 == i) ∧
      (∀ j, j < k → cmColSum k pairs j = pairs.countP fun p => p.2 == j) ∧
      cmDiagSum k pairs = pairs.countP fun p => p.1 == p.2 := by
  refine ⟨?_, ?_, ?_⟩
  · intro i hi
    unfold cmRowSum
    rw [confusionMatrix_row k pairs hi]
    exact rowAux_eq k i pairs fun p hp => (h p hp).2
  · intro j hj
    unfold cmColSum
    rw [confusionMatrix_col k pairs hj]
    exact colAux_eq k j pairs fun p hp => (h p hp).1
  · rw [confusionMatrix_diag]
    exact diagAux_eq k pairs fun p hp => (h p hp).1

/-- Witness for C6 on a concrete 2-class sample list. -/
theorem confusion_matrix_sum_identities_witness :
    cmRowSum 2 [(0, 0), (0, 1), (1, 1)] 0 =
        ([(0, 0), (0, 1), (1, 1)] : LabelPairs).countP (fun p => p.1 == 0) ∧
      cmColSum 2 [(0, 0), (0, 1), (1, 1)] 1 =
        ([(0, 0), (0, 1), (1, 1)] : LabelPairs).countP (fun p => p.2 == 1) ∧
      cmDiagSum 2 [(0, 0), (0, 1), (1, 1)] =
        ([(0, 0), (0, 1), (1, 1)] : LabelPairs).countP fun p => p.1 == p.2 :=
  ⟨(confusion_matrix_sum_identities 2 [(0, 0), (0, 1), (1, 1)] (by decide)).1 0
      (by decide),
   (confusion_matrix_sum_identities 2 [(0, 0), (0, 1), (1, 1)] (by decide)).2.1 1
      (by decide),
   (confusion_matrix_sum_identities 2 [(0, 0), (0, 1), (1, 1)] (by decide)).2.2⟩

lemma gradcamBatchWrites_length (dir : String) (classes : List String) :
    ∀ (l : List ℕ) (idx : ℕ),
      (gradcamBatchWrites dir classes idx l).length = l.length := by
  intro l
  induction l with
  | nil => intro idx; rfl
  | cons p ps ih => intro idx; simp [gradcamBatchWrites, ih]

lemma gradcamBatchWrites_append (dir : String) (classes : List String) :
    ∀ (l1 l2 : List ℕ) (idx : ℕ),
      gradcamBatchWrites dir classes idx (l1 ++ l2) =
        gradcamBatchWrites dir classes idx l1 ++
          gradcamBatchWrites dir classes (idx + l1.length) l2 := by
  intro l1
  induction l1 with
  | nil => intro l2 idx; simp [gradcamBatchWrites]
  | cons p ps ih =>
      intro l2 idx
      simp only [List.cons_append, gradcamBatchWrites, List.append_eq]
      rw [ih l2 (idx + 1)]
      have harith : idx + 1 + ps.length = idx + (ps.length + 1) := by omega
      simp [harith]

lemma gradcamWritesFrom_flatten (dir : String) (classes : List String) :
    ∀ (bs : List (List ℕ)) (idx : ℕ),
      gradcamWritesFrom dir classes idx bs =
        gradcamBatchWrites dir classes idx bs.flatten := by
  intro bs
  induction bs with
  | nil => intro idx; rfl
  | cons b rest ih =>
      intro idx
      simp only [gradcamWritesFrom, List.flatten_cons]
      rw [ih (idx + b.length), gradcamBatchWrites_append]

lemma gradcamBatchWrites_get (dir : String) (classes : List String) :
    ∀ (l : List ℕ) (idx n : ℕ),
      (gradcamBatchWrites dir classes idx l).get? n =
        (l.get? n).map fun p =>
          pathJoin dir (gradcamFileName (idx + n) (classes.getD p "")) := by
  intro l
  induction l with
  | nil => intro idx n; simp [gradcamBatchWrites]
  | cons p ps ih =>
      intro idx n
      cases n with
      | zero => simp [gradcamBatchWrites]
      | succ m =>
          simp only [gradcamBatchWrites, List.get?_cons_succ]
          rw [ih (idx + 1) m]
          have harith : idx + 1 + m = idx + (m + 1) := by omega
          rw [harith]

/-- C8.  A `run_gradcam` call writes exactly one image per sample — the
write list is as long as the flattened prediction list — and the `n`-th
write (counter running across batches) is at
`os.path.join(output_dir, "gradcam_sample_<n>_class_<predicted class>.png")`,
named after the predicted class; the output directory is created first if
absent. -/
theorem gradcam_one_file_per_sample (dir : String) (classes : List String)
    (predBatches : List (List ℕ)) (dirs : List String) :
    (gradcamWrites dir classes predBatches).length =
        predBatches.flatten.length ∧
      (∀ n p, predBatches.flatten.get? n = some p →
        (gradcamWrites dir classes predBatches).get? n =
          some (pathJoin dir (gradcamFileName n (classes.getD p "")))) ∧
      dir ∈ makedirs dirs dir := by
  refine ⟨?_, ?_, ?_⟩
  · rw [gradcamWrites, gradcamWritesFrom_flatten]
    exact gradcamBatchWrites_length dir classes _ 0
  · intro n p hp
    rw [gradcamWrites, gradcamWritesFrom_flatten, gradcamBatchWrites_get]
    rw [hp]
    simp
  · unfold makedirs
    split
    · assumption
    · simp

/-- Witness for C8 on a concrete two-batch run. -/
theorem gradcam_one_file_per_sample_witness :
    ([[1, 0], [1]] : List (List ℕ)).flatten.get? 2 = some 1 ∧
      (gradcamWrites "out/gradcam/" ["dog", "cat"] [[1, 0], [1]]).get? 2 =
        some (pathJoin "out/gradcam/"
          (gradcamFileName 2 ((["dog", "cat"] : List String).getD 1 ""))) ∧
      "out/gradcam/" ∈ makedirs [] "out/gradcam/" :=
  ⟨by decide,
   (gradcam_one_file_per_sample "out/gradcam/" ["dog", "cat"] [[1, 0], [1]]
       []).2.1 2 1 (by decide),
   (gradcam_one_file_per_sample "out/gradcam/" ["dog", "cat"] [[1, 0], [1]]
       []).2.2⟩
